import Mathlib

/-!
Verification development for the Kal compiler front end:
a shallow embedding of the lexer (part_006), the IR generator
(part_002, first revision) and the parser (parser.cc), with theorems
checking the natural-language specification against the code.
-/

set_option linter.unusedVariables false

namespace Kal

/-! ## Lexer model (src/unnamed/part_006)

Characters read from the input are modelled as `Option Char`: `none`
stands for the EOF sentinel returned by the injected `getch` callback.
The input still pending is a `List Char`; once it is exhausted every
further `getch` returns EOF. -/

/-- A character as returned by `getch`: `none` is the EOF sentinel. -/
abbrev Ch := Option Char

/-- `getch` pulls one character from the pending input, or EOF. -/
def getch : List Char → Ch × List Char
  | [] => (none, [])
  | c :: rest => (some c, rest)

/-- The table `hexDigits` = "0123456789ABCDEF" from the lexer. -/
def hexDigits : List Char := String.toList "0123456789ABCDEF"

/-- `hexDigitToNum`: `string::find` yields the index for the sixteen
uppercase hex digits and `npos` otherwise; the result is truncated to a
`char`, so we model the resulting byte value (with `(char)npos = 255`). -/
def hexDigitToNum (ch : Char) : Nat :=
  match hexDigits.findIdx? (fun c => c = ch) with
  | some i => i
  | none => 255

/-- The decoding loop of `ConvertHexString`: take the characters two at a
time and produce the byte `(hi << 4) + lo` (char arithmetic, mod 256). -/
def hexPairs : List Char → List Char
  | hi :: lo :: rest =>
      Char.ofNat (((hexDigitToNum hi) <<< 4 + hexDigitToNum lo) % 256) :: hexPairs rest
  | _ => []

/-- `ConvertHexString` from the lexer. Returns the converted string
together with the diagnostics printed to stderr. A string shorter than
two characters, or one that does not start with `\x`, is returned
verbatim; a `\x` string of odd length prints "invalid hex string" and
yields the empty string; otherwise the pairs after `\x` are decoded. -/
def ConvertHexString (s : String) : String × List String :=
  match h : s.toList with
  | c0 :: c1 :: _ =>
      if c0 = '\\' ∧ c1 = 'x' then
        if s.length % 2 ≠ 0 then ("", ["invalid hex string"])
        else (String.mk (hexPairs (s.toList.drop 2)), [])
      else (s, [])
  | _ => (s, [])

/-- The string-literal scanning loop of `gettok`:
`while (lastCh != '"') { lit += lastCh; lastCh = getch(); }`.
Once the pending input is exhausted, `getch` returns EOF on every further
call and EOF is never `'"'`, so the loop can never exit: we mark that
divergence as `none`. On exit, returns the literal read and the input
still pending (the closing quote already consumed from `input`). -/
def strLoop (lit : List Char) (lastCh : Ch) (input : List Char) :
    Option (List Char × List Char) :=
  match lastCh with
  | none => none
  | some c =>
      if c = '"' then some (lit, input)
      else
        match input with
        | [] => none
        | c' :: rest => strLoop (lit ++ [c]) (some c') rest

/-- The branch of `gettok` taken when the lookahead is `'"'`: read the
next character, run the scanning loop, eat the closing quote, convert the
literal. `input` is the input pending after the opening quote. Yields
`none` when the scanning loop diverges (unterminated literal); otherwise
the value stored into `StrVal`, the diagnostics printed, the new
lookahead character and the input still pending. -/
def gettokString (input : List Char) : Option (String × List String × Ch × List Char) :=
  let (c, rest) := getch input
  match strLoop [] c rest with
  | none => none
  | some (lit, rest') =>
      let (c', rest'') := getch rest'
      let (sv, errs) := ConvertHexString (String.mk lit)
      some (sv, errs, c', rest'')

/-- The number-scanning do/while loop of `gettok`:
`do { num += lastCh; lastCh = getch(); if (lastCh == '.') found_dec = true; }
while (isdigit(lastCh) || lastCh == '.');`
Returns the accumulated run, the `found_dec` flag, the new lookahead and
the pending input. -/
def numLoop (num : List Char) (lastCh : Char) (found : Bool) (input : List Char) :
    List Char × Bool × Ch × List Char :=
  let num' := num ++ [lastCh]
  match input with
  | [] => (num', found, none, [])
  | c :: rest =>
      let found' := if c = '.' then true else found
      if c.isDigit ∨ c = '.' then numLoop num' c found' rest
      else (num', found', some c, rest)

/-- The value of a digit list read in base 10. -/
def digitsToNat (ds : List Char) : Nat :=
  ds.foldl (fun acc c => acc * 10 + (c.toNat - '0'.toNat)) 0

/-- `strtol(s, nullptr, 10)`: skip spaces, an optional sign, then the
longest digit prefix; an input with no digit prefix yields 0. -/
def strtol10 (s : List Char) : Int :=
  let s₁ := s.dropWhile (fun c => c = ' ')
  match s₁ with
  | '-' :: rest => -(digitsToNat (rest.takeWhile Char.isDigit) : Int)
  | '+' :: rest => (digitsToNat (rest.takeWhile Char.isDigit) : Int)
  | _ => (digitsToNat (s₁.takeWhile Char.isDigit) : Int)

/-- `strtod` on a run matching `[0-9.]+`: the digit prefix is the integer
part; a following `'.'` contributes the next digit run as the fractional
part; anything after that is ignored. The value is modelled exactly as a
rational (IEEE rounding is abstracted away). -/
def strtod10 (s : List Char) : ℚ :=
  let ip := s.takeWhile Char.isDigit
  let rest := s.drop ip.length
  match rest with
  | '.' :: r =>
      let fp := r.takeWhile Char.isDigit
      (digitsToNat ip : ℚ) + (digitsToNat fp : ℚ) / (10 : ℚ) ^ fp.length
  | _ => (digitsToNat ip : ℚ)

/-- The token produced by the number branch of `gettok`, with the payload
left in `IntVal` resp. `FPVal`. -/
inductive NumTok
  | int_lit (v : Int)
  | fp_lit (v : ℚ)
deriving DecidableEq, Repr

/-- The branch of `gettok` taken when `isdigit(lastCh) || lastCh == '.'`:
scan the run, then emit `tok_fp_literal` with `FPVal = strtod(num)` when
`found_dec` was set and `tok_int_literal` with `IntVal = strtol(num, 10)`
otherwise. Also returns the new lookahead and pending input. -/
def gettokNumber (lastCh : Char) (input : List Char) : NumTok × Ch × List Char :=
  let (num, found, last', rest) := numLoop [] lastCh false input
  if found then (NumTok.fp_lit (strtod10 num), last', rest)
  else (NumTok.int_lit (strtol10 num), last', rest)

/-! ## IR generation model (src/unnamed/part_002, first revision)

LLVM objects are modelled shallowly: values and instructions as
inductive data, basic blocks as a pool of instruction lists keyed by a
numeric id, the module as the list of its functions, and the global
mutable state of the generator (`Builder`, `NamedValues`,
`FunctionProtos`, `TheModule`, the stderr log) as one explicit record
threaded through every operation. Fresh LLVM objects draw distinct
numeric ids from a counter. -/

/-- `VarType` from parser.h. -/
inductive VarType
  | type_double
  | type_byte
  | type_bool
  | type_byte_ptr
deriving DecidableEq, Repr

/-- The LLVM types that `getLLVMType` produces. -/
inductive LType
  | double
  | i8
  | i1
  | ptr (pointee : LType)
deriving DecidableEq, Repr

/-- `getLLVMType`: the switch covers every `VarType`, so it never yields
a null pointer. -/
def getLLVMType : VarType → LType
  | .type_double => .double
  | .type_byte => .i8
  | .type_bool => .i1
  | .type_byte_ptr => .ptr .i8

/-- An LLVM value: an instruction or alloca result (`reg`), a constant,
the address of a string-literal global, or an incoming argument. The
`dval` of a floating literal is carried as an exact rational: codegen
only moves such constants around, it never computes with them. -/
inductive Val
  | reg (id : Nat)
  | constFP (v : ℚ)
  | constInt (width : Nat) (v : Nat)
  | nullConst (t : LType)
  | strPtr (g : Nat)
  | arg (fid : Nat) (i : Nat)
deriving DecidableEq, Repr

/-- `getZeroVal`: a floating 0.0 for `double`, `Constant::getNullValue`
for the other types. -/
def getZeroVal : VarType → Val
  | .type_double => .constFP 0
  | .type_byte => .nullConst (getLLVMType .type_byte)
  | .type_bool => .nullConst (getLLVMType .type_bool)
  | .type_byte_ptr => .nullConst (getLLVMType .type_byte_ptr)

/-- The instructions the generator emits. `res` is the id of the value an
instruction defines; the trailing string is the name hint passed to the
builder. `store` carries an `Option Val` because `CreateStore` is handed
a possibly-null `Value*` on one path of assignment codegen. `icmpNENull`
is `CreateICmpNE(v, Constant::getNullValue(v->getType()))`. -/
inductive Instr
  | alloca (res : Nat) (ty : LType) (nm : String)
  | store (v : Option Val) (addr : Val)
  | load (res : Nat) (addr : Val) (nm : String)
  | add (res : Nat) (l r : Val) (nm : String)
  | sub (res : Nat) (l r : Val) (nm : String)
  | mul (res : Nat) (l r : Val) (nm : String)
  | icmpULT (res : Nat) (l r : Val) (nm : String)
  | icmpNENull (res : Nat) (v : Val) (nm : String)
  | fcmpONE (res : Nat) (l r : Val) (nm : String)
  | fadd (res : Nat) (l r : Val) (nm : String)
  | br (dest : Nat)
  | condbr (cond : Val) (thenB elseB : Nat)
  | ret (v : Val)
  | call (res : Nat) (callee : String) (args : List Val) (nm : String)
deriving DecidableEq, Repr

/-- The `Variable` record of the symbol table. -/
structure Variable where
  type : VarType
  llvmType : LType
  allocaInst : Nat
deriving DecidableEq, Repr

/-- `PrototypeAST`. -/
structure PrototypeAST where
  name : String
  retType : VarType
  argNames : List String
  argTypes : List VarType
deriving DecidableEq, Repr

/-- An `llvm::Function`: identity, name, arguments (name and IR type, as
set by `PrototypeAST::codegen`), and return IR type. `args.length` is
`arg_size()`. -/
structure Func where
  fid : Nat
  name : String
  args : List (String × LType)
  retLLVMType : LType
deriving DecidableEq, Repr

/-- A basic block: id, name hint, instructions in order. -/
structure BB where
  bid : Nat
  bname : String
  instrs : List Instr
deriving DecidableEq, Repr

/-- The prototype registry `FunctionProtos`: function name to the latest
prototype declared with that name. Within expression and statement
codegen the registry is only ever read (its sole writers are
`FunctionAST::codegen`, which registers the prototype before the body,
and the driver's extern handler), so it is threaded through those
functions as a read-only parameter rather than as a mutable field. -/
abbrev ProtoMap := String → Option PrototypeAST

/-- The global mutable state of the IR generator: the symbol table
`NamedValues`, the functions of `TheModule`, the pool of basic blocks,
the builder insertion point, the entry block of the function being
generated, the messages printed to stderr, and the fresh-id counter. -/
structure CGState where
  NamedValues : String → Option Variable
  module : List Func
  blocks : List BB
  curBlock : Nat
  entryBlock : Nat
  errors : List String
  nextId : Nat

/-- Draw a fresh id. -/
def freshId (s : CGState) : Nat × CGState :=
  (s.nextId, { s with nextId := s.nextId + 1 })

/-- Append an instruction to the block with the given id. -/
def appendInstr (b : Nat) (i : Instr) : List BB → List BB
  | [] => []
  | bb :: rest =>
      if bb.bid = b then { bb with instrs := bb.instrs ++ [i] } :: rest
      else bb :: appendInstr b i rest

/-- Insert an instruction at the head of the block with the given id
(`createEntryBlockAlloca` positions a temporary builder at
`entry.begin()`). -/
def prependInstr (b : Nat) (i : Instr) : List BB → List BB
  | [] => []
  | bb :: rest =>
      if bb.bid = b then { bb with instrs := i :: bb.instrs } :: rest
      else bb :: prependInstr b i rest

/-- Emit an instruction at the builder's insertion point. -/
def emit (i : Instr) (s : CGState) : CGState :=
  { s with blocks := appendInstr s.curBlock i s.blocks }

/-- Create a new basic block. (Whether LLVM attaches it to the function
immediately or on a later `push_back` does not affect its contents, so
the pool holds it from creation.) -/
def newBlock (nm : String) (s : CGState) : Nat × CGState :=
  let (id, s₁) := freshId s
  (id, { s₁ with blocks := s₁.blocks ++ [⟨id, nm, []⟩] })

/-- The instruction list of a block in the pool. -/
def blockInstrs (b : Nat) (s : CGState) : Option (List Instr) :=
  (s.blocks.find? (fun bb => bb.bid = b)).map BB.instrs

/-- `logErrorV`: print the message and return null. -/
def logErrorV (msg : String) (s : CGState) : Option Val × CGState :=
  (none, { s with errors := s.errors ++ [msg] })

/-- `getVar`: look the name up in `NamedValues` (the copy the source
makes is a by-value `Variable`, so the lookup result itself suffices). -/
def getVar (name : String) (s : CGState) : Option Variable :=
  s.NamedValues name

/-- `std::map::insert`: the new entry is added only if the key is not
already present; an existing entry is kept unchanged. -/
def mapInsert (k : String) (v : Variable) (m : String → Option Variable) :
    String → Option Variable :=
  fun x => if x = k then some ((m k).getD v) else m x

/-- `std::map::erase` by key. -/
def mapErase (k : String) (m : String → Option Variable) : String → Option Variable :=
  fun x => if x = k then none else m x

/-- `createEntryBlockAlloca`: a fresh alloca inserted at the beginning of
the entry block of the function being generated. Returns the alloca id. -/
def createEntryBlockAlloca (varName : String) (ty : LType) (s : CGState) :
    Nat × CGState :=
  let (id, s₁) := freshId s
  (id, { s₁ with blocks := prependInstr s₁.entryBlock (Instr.alloca id ty varName) s₁.blocks })

/-- `PrototypeAST::codegen`: build the parameter types (one per argument
name; `getLLVMType` never fails, so the null checks never fire), create
the function with external linkage in the current module, and set the
argument names. The out-of-range `argTypes[i]` read that C++ would make
on a malformed prototype is totalised with a default. -/
def PrototypeAST.codegen (p : PrototypeAST) (s : CGState) : Func × CGState :=
  let paramTypes := (List.range p.argNames.length).map
    (fun i => getLLVMType (p.argTypes.getD i VarType.type_double))
  let (id, s₁) := freshId s
  let f : Func := ⟨id, p.name, p.argNames.zip paramTypes, getLLVMType p.retType⟩
  (f, { s₁ with module := s₁.module ++ [f] })

/-- `resolveFunction`: the module's function of that name if present,
else a re-emission of the registered prototype, else null. -/
def resolveFunction (FunctionProtos : ProtoMap) (name : String) (s : CGState) :
    Option Func × CGState :=
  match s.module.find? (fun f => f.name = name) with
  | some f => (some f, s)
  | none =>
      match FunctionProtos name with
      | some p =>
          let (f, s₁) := p.codegen s
          (some f, s₁)
      | none => (none, s)

/-! ### AST

The two C++ class hierarchies become two inductive types; an expression
used as a statement is the `Expr` constructor of `StatementAST`. The
three-flag `NumberExprAST` is split into its three well-formed shapes
(`FromFP`, `FromInt`, `FromStr`). -/

inductive ExprAST
  | NumberFP (dval : ℚ)
  | NumberInt (ival : Int)
  | NumberStr (sval : String)
  | Variable (name : String)
  | Unary (op : Char) (operand : ExprAST)
  | Binary (op : Char) (lhs rhs : ExprAST)
  | Call (callee : String) (args : List ExprAST)
deriving Repr

inductive StatementAST
  | Expr (e : ExprAST)
  | VarDecl (name : String) (type : VarType) (val : Option ExprAST)
  | If (condExpr : ExprAST) (thenStmt elseStmt : StatementAST)
  | For (varName : String) (start stop step : ExprAST) (body : StatementAST)
  | Block (body : List StatementAST)
  | Return (expr : ExprAST)
deriving Repr

/-- `dynamic_cast<VariableExprAST*>`: the name if the node is a variable
reference, else null. -/
def ExprAST.asVariable? : ExprAST → Option String
  | .Variable n => some n
  | _ => none

/-- The `CodegenRes` pair returned by statement codegen. -/
structure CodegenRes where
  success : Bool
  ret : Bool
deriving DecidableEq, Repr

mutual

/-- `codegenExpr` of the expression classes, one match arm per class
(`NumberExprAST`, `VariableExprAST`, `UnaryExprAST`, `BinaryExprAST`,
`CallExprAST`), following the source line by line. -/
def codegenExpr (FunctionProtos : ProtoMap) : ExprAST → CGState → Option Val × CGState
  | .NumberFP dval, s => (some (Val.constFP dval), s)
  | .NumberInt ival, s =>
      -- Constant::getIntegerValue(Int8Ty, APInt(8, ival)): the value is
      -- truncated to the low 8 bits.
      (some (Val.constInt 8 ((ival % 256).toNat)), s)
  | .NumberStr sval, s =>
      -- A private constant global holding the null-terminated bytes; the
      -- value is a GEP to its first byte.
      let (g, s₁) := freshId s
      (some (Val.strPtr g), { s₁ with errors := s₁.errors })
  | .Variable name, s =>
      match getVar name s with
      | none => logErrorV ("unknown variable " ++ name) s
      | some v =>
          let (id, s₁) := freshId s
          (some (Val.reg id), emit (Instr.load id (Val.reg v.allocaInst) name) s₁)
  | .Unary op operand, s =>
      if op = '&' then
        match operand.asVariable? with
        | none => logErrorV "address of can only be applied to variables" s
        | some n =>
            match getVar n s with
            | none => logErrorV ("unknown variable: " ++ n) s
            | some v => (some (Val.reg v.allocaInst), s)
      else if op = '*' then
        match operand.asVariable? with
        | none => logErrorV "dereferencing can only be applied to variables" s
        | some n =>
            match getVar n s with
            | none => logErrorV ("unknown variable: " ++ n) s
            | some v =>
                if v.type ≠ VarType.type_byte_ptr then
                  logErrorV "can only dereference pointers" s
                else
                  let (p, s₁) := freshId s
                  let s₂ := emit (Instr.load p (Val.reg v.allocaInst) "load_ptr") s₁
                  let (d, s₃) := freshId s₂
                  (some (Val.reg d), emit (Instr.load d (Val.reg p) "deref") s₃)
      else logErrorV ("unknown unary op: " ++ String.mk [op]) s
  | .Binary op lhs rhs, s =>
      if op = '=' then
        match lhs.asVariable? with
        | none => logErrorV "destination of assignment must be a variable" s
        | some lname =>
            -- Codegen the RHS, then look the destination up; the store is
            -- emitted with whatever the RHS produced, null included.
            let (r, s₁) := codegenExpr FunctionProtos rhs s
            match getVar lname s₁ with
            | none => logErrorV ("unknown variable: " ++ lname) s₁
            | some var => (r, emit (Instr.store r (Val.reg var.allocaInst)) s₁)
      else
        let (l?, s₁) := codegenExpr FunctionProtos lhs s
        let (r?, s₂) := codegenExpr FunctionProtos rhs s₁
        match l?, r? with
        | some l, some r =>
            if op = '+' then
              let (id, s₃) := freshId s₂
              (some (Val.reg id), emit (Instr.add id l r "addtmp") s₃)
            else if op = '-' then
              let (id, s₃) := freshId s₂
              (some (Val.reg id), emit (Instr.sub id l r "subtmp") s₃)
            else if op = '*' then
              let (id, s₃) := freshId s₂
              (some (Val.reg id), emit (Instr.mul id l r "multmp") s₃)
            else if op = '<' then
              -- case '<' emits the unsigned compare but has no return or
              -- break: control falls through into the default case, which
              -- logs "invalid bin op: <" and returns null.
              let (id, s₃) := freshId s₂
              let s₄ := emit (Instr.icmpULT id l r "cmptmp") s₃
              logErrorV ("invalid bin op: " ++ String.mk [op]) s₄
            else logErrorV ("invalid bin op: " ++ String.mk [op]) s₂
        | _, _ => (none, s₂)
  | .Call callee args, s =>
      match resolveFunction FunctionProtos callee s with
      | (none, s₁) => logErrorV ("unknown function referenced: " ++ callee) s₁
      | (some calleeFun, s₁) =>
          if calleeFun.args.length ≠ args.length then
            logErrorV ("incorrect # arguments passed to " ++ callee ++
              ": expected " ++ toString calleeFun.args.length ++
              ", got " ++ toString args.length) s₁
          else
            match codegenArgs FunctionProtos args s₁ with
            | (none, s₂) => (none, s₂)
            | (some argsV, s₂) =>
                let (id, s₃) := freshId s₂
                (some (Val.reg id), emit (Instr.call id callee argsV "calltmp") s₃)

/-- The argument loop of `CallExprAST::codegenExpr`: evaluate left to
right, bail out on the first null. -/
def codegenArgs (FunctionProtos : ProtoMap) : List ExprAST → CGState → Option (List Val) × CGState
  | [], s => (some [], s)
  | a :: rest, s =>
      match codegenExpr FunctionProtos a s with
      | (none, s₁) => (none, s₁)
      | (some v, s₁) =>
          match codegenArgs FunctionProtos rest s₁ with
          | (none, s₂) => (none, s₂)
          | (some vs, s₂) => (some (v :: vs), s₂)

end

mutual

/-- `codegen` of the statement classes, one match arm per class
(`ExprAST::codegen`, `VariableDeclAST`, `IfStmtAST`, `ForStmtAST`,
`BlockStmtAST`, `ReturnStmtAST`), following the source line by line. -/
def codegenStmt (FunctionProtos : ProtoMap) : StatementAST → CGState → CodegenRes × CGState
  | .Expr e, s =>
      let (v, s₁) := codegenExpr FunctionProtos e s
      (⟨v.isSome, false⟩, s₁)
  | .Return expr, s =>
      match codegenExpr FunctionProtos expr s with
      | (none, s₁) => (⟨false, false⟩, s₁)
      | (some retVal, s₁) => (⟨true, true⟩, emit (Instr.ret retVal) s₁)
  | .VarDecl name type val, s =>
      -- getLLVMType never yields null, so its failure path is dead.
      let llvmType := getLLVMType type
      match (match val with
             | some v => codegenExpr FunctionProtos v s
             | none => (some (getZeroVal type), s)) with
      | (none, s₁) => (⟨false, false⟩, s₁)
      | (some initVal, s₁) =>
          let (a, s₂) := createEntryBlockAlloca name llvmType s₁
          let s₃ := emit (Instr.store (some initVal) (Val.reg a)) s₂
          (⟨true, false⟩,
           { s₃ with NamedValues := mapInsert name ⟨type, llvmType, a⟩ s₃.NamedValues })
  | .If condExpr thenStmt elseStmt, s =>
      match codegenExpr FunctionProtos condExpr s with
      | (none, s₁) => (⟨false, false⟩, s₁)
      | (some condCode, s₁) =>
          let (c, s₂) := freshId s₁
          let s₃ := emit (Instr.icmpNENull c condCode "ifcond") s₂
          let (thenB, s₄) := newBlock "then" s₃
          let (elseB, s₅) := newBlock "if" s₄
          let (mergeB, s₆) := newBlock "ifcont" s₅
          let s₇ := emit (Instr.condbr (Val.reg c) thenB elseB) s₆
          let s₈ := { s₇ with curBlock := thenB }
          let (thenRes, s₉) := codegenStmt FunctionProtos thenStmt s₈
          if thenRes.success = false then (thenRes, s₉)
          else
            let s₁₀ := if thenRes.ret = false then emit (Instr.br mergeB) s₉ else s₉
            let s₁₁ := { s₁₀ with curBlock := elseB }
            let (elseRes, s₁₂) := codegenStmt FunctionProtos elseStmt s₁₁
            if elseRes.success = false then (elseRes, s₁₂)
            else
              let s₁₃ := if elseRes.ret = false then emit (Instr.br mergeB) s₁₂ else s₁₂
              (⟨true, false⟩, { s₁₃ with curBlock := mergeB })
  | .For varName start stop step body, s =>
      -- The loop variable's slot is always a double.
      let (alloca, s₁) := createEntryBlockAlloca varName (getLLVMType .type_double) s
      match codegenExpr FunctionProtos start s₁ with
      | (none, s₂) => (⟨false, false⟩, s₂)
      | (some startVal, s₂) =>
          let s₃ := emit (Instr.store (some startVal) (Val.reg alloca)) s₂
          let (loopBB, s₄) := newBlock "loop" s₃
          let s₅ := { (emit (Instr.br loopBB) s₄) with curBlock := loopBB }
          -- Save the binding the loop variable shadows, then insert the
          -- loop variable (std::map::insert: a present key is kept).
          let oldLoopVar := getVar varName s₅
          let nv₀ := mapInsert varName ⟨.type_double, getLLVMType .type_double, alloca⟩ s₅.NamedValues
          let s₆ := { s₅ with NamedValues := nv₀ }
          let (bodyRes, s₇) := codegenStmt FunctionProtos body s₆
          if bodyRes.success = false then (bodyRes, s₇)
          else if bodyRes.ret then
            -- endCond stays null: no back-edge branch is emitted.
            let (afterBB, s₈) := newBlock "afterloop" s₇
            let s₉ := { s₈ with curBlock := afterBB }
            let nv := match oldLoopVar with
                      | some old => mapInsert varName old s₉.NamedValues
                      | none => mapErase varName s₉.NamedValues
            (⟨true, false⟩, { s₉ with NamedValues := nv })
          else
            match codegenExpr FunctionProtos step s₇ with
            | (none, s₈) => (⟨false, false⟩, s₈)
            | (some stepVal, s₈) =>
                let (cur, s₉) := freshId s₈
                let s₁₀ := emit (Instr.load cur (Val.reg alloca) "") s₉
                let (next, s₁₁) := freshId s₁₀
                let s₁₂ := emit (Instr.fadd next (Val.reg cur) stepVal "nextvar") s₁₁
                let s₁₃ := emit (Instr.store (some (Val.reg next)) (Val.reg alloca)) s₁₂
                match codegenExpr FunctionProtos stop s₁₃ with
                | (none, s₁₄) => (⟨false, false⟩, s₁₄)
                | (some endCond, s₁₄) =>
                    let (ec, s₁₅) := freshId s₁₄
                    let s₁₆ := emit (Instr.fcmpONE ec endCond (Val.constFP 0) "loopcond") s₁₅
                    let (afterBB, s₁₇) := newBlock "afterloop" s₁₆
                    let s₁₈ := emit (Instr.condbr (Val.reg ec) loopBB afterBB) s₁₇
                    let s₁₉ := { s₁₈ with curBlock := afterBB }
                    let nv := match oldLoopVar with
                              | some old => mapInsert varName old s₁₉.NamedValues
                              | none => mapErase varName s₁₉.NamedValues
                    (⟨true, false⟩, { s₁₉ with NamedValues := nv })
  | .Block body, s => codegenBlock FunctionProtos body s

/-- The statement loop of `BlockStmtAST::codegen`. -/
def codegenBlock (FunctionProtos : ProtoMap) : List StatementAST → CGState → CodegenRes × CGState
  | [], s => (⟨true, false⟩, s)
  | e :: rest, s =>
      let (stmtRes, s₁) := codegenStmt FunctionProtos e s
      if stmtRes.success = false then (stmtRes, s₁)
      else if stmtRes.ret then (⟨true, true⟩, s₁)
      else codegenBlock FunctionProtos rest s₁

end

/-- `FunctionAST`. -/
structure FunctionAST where
  proto : PrototypeAST
  body : StatementAST
deriving Repr

/-- One round of the parameter loop of `FunctionAST::codegen`: create an
alloca for argument `i`, store the incoming value into it, and insert the
binding (with the declared type `p.getArgType(i)` and the argument's IR
type) into the symbol table. -/
def setupArg (f : Func) (p : PrototypeAST) (i : Nat) (s : CGState) : CGState :=
  let nm := (f.args.getD i ("", LType.double)).1
  let llvmType := (f.args.getD i ("", LType.double)).2
  let type := p.argTypes.getD i VarType.type_double
  let (a, s₁) := createEntryBlockAlloca nm llvmType s
  let s₂ := emit (Instr.store (some (Val.arg f.fid i)) (Val.reg a)) s₁
  { s₂ with NamedValues := mapInsert nm ⟨type, llvmType, a⟩ s₂.NamedValues }

/-- The parameter loop of `FunctionAST::codegen` over `f->args()`. -/
def setupArgs (f : Func) (p : PrototypeAST) (s : CGState) : CGState :=
  (List.range f.args.length).foldl (fun s i => setupArg f p i s) s

/-- `FunctionProtos[p.getName()] = std::move(proto)`: `operator[]`
overwrites an existing entry. -/
def registerProto (p : PrototypeAST) (FunctionProtos : ProtoMap) : ProtoMap :=
  fun x => if x = p.name then some p else FunctionProtos x

/-- The prefix of `FunctionAST::codegen` up to (not including) the body:
transfer the prototype into `FunctionProtos` (`operator[]` overwrites),
resolve the function, create the `entry` block and set the insertion
point there, clear `NamedValues`, and run the parameter loop. Returns
the updated registry alongside. The `none` arm is the `assert(f)` that
cannot fire (the prototype was just registered). -/
def FunctionAST.enter (fn : FunctionAST) (FunctionProtos : ProtoMap) (s : CGState) :
    ProtoMap × Option Func × CGState :=
  let p := fn.proto
  let protos₁ : ProtoMap := registerProto p FunctionProtos
  match resolveFunction protos₁ p.name s with
  | (none, s₂) => (protos₁, none, s₂)
  | (some f, s₂) =>
      let (bb, s₃) := newBlock "entry" s₂
      let s₄ := { s₃ with curBlock := bb, entryBlock := bb }
      let s₅ := { s₄ with NamedValues := fun _ => none }
      (protos₁, some f, setupArgs f p s₅)

/-- Does the builder's insertion block hold no instructions
(`Builder.GetInsertBlock()->empty()`)? -/
def curBlockEmpty (s : CGState) : Bool :=
  ((blockInstrs s.curBlock s).getD []).isEmpty

/-- `FunctionAST::codegen`: the prefix above, then the body (which reads
the updated registry); a failed body erases the function from the module
and yields null; otherwise, for every function not named "magic", an
empty insertion block receives the default `ret double 0.0`. (`f->print`,
the verifier assertion and the pass manager are external effects that do
not change what is modelled.) The registry resulting from the transfer
step is returned alongside. -/
def FunctionAST.codegen (fn : FunctionAST) (FunctionProtos : ProtoMap) (s : CGState) :
    ProtoMap × Option Func × CGState :=
  match fn.enter FunctionProtos s with
  | (protos₁, none, s') => (protos₁, none, s')
  | (protos₁, some f, s') =>
      let (bodyRes, s₇) := codegenStmt protos₁ fn.body s'
      if bodyRes.success = false then
        (protos₁, none, { s₇ with module := s₇.module.filter (fun g => g.fid ≠ f.fid) })
      else
        let s₈ :=
          if fn.proto.name ≠ "magic" then
            if curBlockEmpty s₇ then emit (Instr.ret (Val.constFP 0)) s₇ else s₇
          else s₇
        (protos₁, some f, s₈)

/-! ## Parser model (src/parser.cc, `ParseIfStmt`)

`ParseIfStmt` only sequences the shared token cursor and the two
sub-parsers `ParseExpression` / `ParseStmt`; we embed it over an
abstract parser state `σ` with those collaborators supplied as an
environment, mirroring the source statement by statement. -/

/-- `tok_then` from lexer.h. -/
def tok_then : Int := -7

/-- `tok_else` from lexer.h. -/
def tok_else : Int := -8

/-- The collaborators of `ParseIfStmt`: the current-token cursor,
`getNextToken`, and the two sub-parsers (each returns a node or null,
advancing the shared state). -/
structure IfParseEnv (σ E S : Type) where
  curTok : σ → Int
  getNextToken : σ → σ
  ParseExpression : σ → Option E × σ
  ParseStmt : σ → Option S × σ

/-- An `IfStmtAST` node as built by `ParseIfStmt`: the member
`elseStmt` is a `unique_ptr` that may be null. -/
inductive IfNode (E S : Type)
  | mk (cond : E) (thenStmt : S) (elseStmt : Option S)
deriving DecidableEq

/-- `ParseIfStmt`: eat `if`, parse the condition, require `then`, parse
the then-statement, require `else`, parse the else-statement. The
post-parse null check after the else-statement re-examines `then`
instead of `elseStmt` (it is `if (!then)` in the source), so a null
else-statement flows into the constructed node. -/
def ParseIfStmt {σ E S : Type} (env : IfParseEnv σ E S) (s0 : σ) :
    Option (IfNode E S) × σ :=
  let s1 := env.getNextToken s0
  match env.ParseExpression s1 with
  | (none, s2) => (none, s2)
  | (some cond, s2) =>
      if env.curTok s2 ≠ tok_then then (none, s2)
      else
        let s3 := env.getNextToken s2
        match env.ParseStmt s3 with
        | (none, s4) => (none, s4)
        | (some thenStmt, s4) =>
            if env.curTok s4 ≠ tok_else then (none, s4)
            else
              let s5 := env.getNextToken s4
              let (elseStmt, s6) := env.ParseStmt s5
              if (some thenStmt : Option S).isNone then (none, s6)
              else (some (IfNode.mk cond thenStmt elseStmt), s6)

/-! ## Concrete fixtures

Small concrete states and programs used to evaluate the embedded code at
specific inputs. -/

/-- A fresh generator state: one empty `entry` block (id 0) holding the
insertion point, empty symbol table and module. -/
def st0 : CGState :=
  { NamedValues := fun _ => none,
    module := [], blocks := [⟨0, "entry", []⟩], curBlock := 0, entryBlock := 0,
    errors := [], nextId := 1 }

/-- An empty prototype registry. -/
def noProtos : ProtoMap := fun _ => none

/-- A double variable whose stack slot is alloca 90. -/
def vA : Variable := ⟨.type_double, .double, 90⟩

/-- A double variable whose stack slot is alloca 91. -/
def vB : Variable := ⟨.type_double, .double, 91⟩

/-- `st0` with locals `a` (slot 90) and `b` (slot 91) in scope. -/
def stAB : CGState :=
  { st0 with NamedValues := mapInsert "b" vB (mapInsert "a" vA st0.NamedValues) }

/-- `st0` with a local `i` (slot 90) in scope. -/
def stI : CGState := { st0 with NamedValues := mapInsert "i" vA st0.NamedValues }

/-- `for i = 0.0, 1.0, 1.0 i` — a loop whose variable shadows the outer
`i` and whose body reads `i`. -/
def forStmt : StatementAST :=
  .For "i" (.NumberFP 0) (.NumberFP 1) (.NumberFP 1) (.Expr (.Variable "i"))

/-- `st0` with a local `x` (slot 90) in scope. -/
def stX : CGState := { st0 with NamedValues := mapInsert "x" vA st0.NamedValues }

/-- `var x double = 2.0` — a redeclaration of `x`. -/
def xdecl : StatementAST := .VarDecl "x" .type_double (some (.NumberFP 2))

/-- `def double magic() {}`. -/
def magicFn : FunctionAST := ⟨⟨"magic", .type_double, [], []⟩, .Block []⟩

/-- `def double g() {}`. -/
def plainFn : FunctionAST := ⟨⟨"g", .type_double, [], []⟩, .Block []⟩

/-- `def double h() var a double = 1.0` — its body declares a local. -/
def fnV : FunctionAST :=
  ⟨⟨"h", .type_double, [], []⟩, .VarDecl "a" .type_double (some (.NumberFP 1))⟩

/-- `def double bad() return nosuch` — its body codegen fails. -/
def fnBad : FunctionAST :=
  ⟨⟨"bad", .type_double, [], []⟩, .Return (.Variable "nosuch")⟩

/-- `def double w(double x) {}` — a function with one parameter. -/
def fnW : FunctionAST :=
  ⟨⟨"w", .type_double, ["x"], [.type_double]⟩, .Block []⟩

/-- A prototype `byte f(byte x)`. -/
def protoF : PrototypeAST := ⟨"f", .type_byte, ["x"], [.type_byte]⟩

/-- A registry holding `protoF` under its name. -/
def protosWithF : ProtoMap := fun x => if x = "f" then some protoF else none

/-- A function `f` already present in the module. -/
def funcF : Func := ⟨5, "f", [("x", .i8)], .i8⟩

/-- `st0` with `funcF` already in the current module. -/
def stM : CGState := { st0 with module := [funcF] }

/-- The registry produced by `plainFn.enter`. -/
def c2protos : ProtoMap := (plainFn.enter noProtos st0).1

/-- The function resolved by `plainFn.enter`. -/
def c2f : Func := ((plainFn.enter noProtos st0).2.1).getD ⟨0, "", [], .double⟩

/-- The state after `plainFn.enter`. -/
def c2s1 : CGState := (plainFn.enter noProtos st0).2.2

/-- The result of `plainFn`'s body codegen. -/
def c2res : CodegenRes := (codegenStmt c2protos plainFn.body c2s1).1

/-- The state after `plainFn`'s body codegen. -/
def c2s7 : CGState := (codegenStmt c2protos plainFn.body c2s1).2

/-- The registry produced by `fnBad.enter`. -/
def c7protos : ProtoMap := (fnBad.enter noProtos st0).1

/-- The function resolved by `fnBad.enter`. -/
def c7f : Func := ((fnBad.enter noProtos st0).2.1).getD ⟨0, "", [], .double⟩

/-- The state after `fnBad.enter`. -/
def c7s1 : CGState := (fnBad.enter noProtos st0).2.2

/-- The result of `fnBad`'s body codegen. -/
def c7res : CodegenRes := (codegenStmt c7protos fnBad.body c7s1).1

/-- The state after `fnBad`'s body codegen. -/
def c7s7 : CGState := (codegenStmt c7protos fnBad.body c7s1).2

/-- The registry produced by `fnW.enter`. -/
def c8protos : ProtoMap := (fnW.enter noProtos st0).1

/-- The function resolved by `fnW.enter`. -/
def c8f : Func := ((fnW.enter noProtos st0).2.1).getD ⟨0, "", [], .double⟩

/-- The state after `fnW.enter`. -/
def c8s1 : CGState := (fnW.enter noProtos st0).2.2

/-- The state after the RHS codegen of the assignment `a = nope` in
`stAB` (the unknown-variable diagnostic for `nope` already logged). -/
def c9s1 : CGState := (codegenExpr noProtos (.Variable "nope") stAB).2

/-- A concrete parser environment over state `Nat`: the cursor shows
`then` at 2 and `else` at 4, `getNextToken` is successor, the condition
parses to state 2, `ParseStmt` succeeds at 3 (the then branch) and fails
anywhere else, ending in state 6. -/
def c10Env : IfParseEnv Nat Unit Unit :=
  { curTok := fun n => if n = 2 then tok_then else if n = 4 then tok_else else 0,
    getNextToken := Nat.succ,
    ParseExpression := fun _ => (some (), 2),
    ParseStmt := fun n => if n = 3 then (some (), 4) else (none, 6) }

/-! ## Theorems -/

/-- Claim C1. The claim says a binary `l < r` whose operands both codegen
successfully returns the 1-bit compare result as a non-null value. The
code contradicts it: on `a < b` (both operands known doubles) the `'<'`
case emits the `icmpULT` but, lacking a `return`, falls through into the
`default` case, logs "invalid bin op: <" and returns null. This theorem
evaluates the code at that failing input. -/
theorem c1_lt_falls_through_to_error :
    (codegenExpr noProtos (.Binary '<' (.Variable "a") (.Variable "b")) stAB).1 = none
    ∧ (codegenExpr noProtos (.Binary '<' (.Variable "a") (.Variable "b")) stAB).2.errors
        = ["invalid bin op: <"]
    ∧ blockInstrs 0 (codegenExpr noProtos (.Binary '<' (.Variable "a") (.Variable "b")) stAB).2
        = some [Instr.load 1 (Val.reg 90) "a", Instr.load 2 (Val.reg 91) "b",
                Instr.icmpULT 3 (Val.reg 1) (Val.reg 2) "cmptmp"] := by
  refine ⟨rfl, rfl, rfl⟩

/-- Claim C2, counterexample. For the function definition
`def double magic() {}` the body codegen succeeds without returning and
leaves the insertion block (the entry block, id 2) empty, yet codegen
completes successfully with that block still empty: no default
`return 0.0` is emitted, because the code only emits it for functions
not named "magic". -/
theorem c2_magic_no_default_return :
    ((magicFn.codegen noProtos st0).2.1).isSome = true
    ∧ (codegenStmt (magicFn.enter noProtos st0).1 magicFn.body
        (magicFn.enter noProtos st0).2.2).1 = ⟨true, false⟩
    ∧ blockInstrs (magicFn.codegen noProtos st0).2.2.curBlock
        (magicFn.codegen noProtos st0).2.2 = some [] := by
  refine ⟨rfl, rfl, rfl⟩

/-- Claim C3. The claim (and the code's own comments) say a new binding
for an already-bound name replaces the old one for subsequent lookups.
`NamedValues.insert` never overwrites an existing key, so it does not:
at the failing input `for i = 0.0, 1.0, 1.0 i` with an outer `i` bound
to slot 90, the loop allocates slot 1 for its variable, but the body's
read of `i` still loads from slot 90, and after the loop the binding is
still the outer one. Likewise `var x double = 2.0` with an outer `x` at
slot 90 allocates and stores to a fresh slot 1 but leaves the symbol
table entry for `x` at slot 90. -/
theorem c3_insert_does_not_shadow :
    blockInstrs 2 (codegenStmt noProtos forStmt stI).2
      = some [Instr.load 3 (Val.reg 90) "i",
              Instr.load 4 (Val.reg 1) "",
              Instr.fadd 5 (Val.reg 4) (Val.constFP 1) "nextvar",
              Instr.store (some (Val.reg 5)) (Val.reg 1),
              Instr.fcmpONE 6 (Val.constFP 1) (Val.constFP 0) "loopcond",
              Instr.condbr (Val.reg 6) 2 7]
    ∧ (codegenStmt noProtos forStmt stI).2.NamedValues "i" = some vA
    ∧ (codegenStmt noProtos xdecl stX).1 = ⟨true, false⟩
    ∧ blockInstrs 0 (codegenStmt noProtos xdecl stX).2
      = some [Instr.alloca 1 .double "x", Instr.store (some (Val.constFP 2)) (Val.reg 1)]
    ∧ (codegenStmt noProtos xdecl stX).2.NamedValues "x" = some vA := by
  refine ⟨rfl, rfl, rfl, rfl, rfl⟩

/-- Claim C4, counterexample. The maximal run scanned from the input
".5)" is ".5", which contains a '.', yet the lexer emits `int_lit`
(with `strtol` payload 0), not `fp_lit`: `found_dec` is only ever set
while looking at characters after the first one of the run. -/
theorem c4_leading_dot_yields_int_lit :
    (numLoop [] '.' false ['5', ')']).1 = ['.', '5']
    ∧ gettokNumber '.' ['5', ')'] = (NumTok.int_lit 0, some ')', [])
    ∧ NumTok.int_lit 0 ≠ NumTok.fp_lit (strtod10 ['.', '5']) := by
  refine ⟨rfl, rfl, by decide⟩

/-- The accumulator of the number-scanning loop only prefixes the run:
running it with accumulator `num` equals running it empty and prepending
`num`. -/
theorem numLoop_acc (input : List Char) :
    ∀ (num : List Char) (c : Char) (found : Bool),
      numLoop num c found input
        = (num ++ (numLoop [] c found input).1, (numLoop [] c found input).2) := by
  induction input with
  | nil => intro num c found; simp [numLoop]
  | cons c' rest ih =>
      intro num c found
      simp only [numLoop, List.nil_append]
      split
      · rw [ih (num ++ [c]) c', ih [c] c']
        simp
      · simp

/-- The run scanned by the number loop starts with the character the loop
was entered on. -/
theorem numLoop_first (input : List Char) (c : Char) (found : Bool) :
    ∃ t, (numLoop [] c found input).1 = c :: t := by
  cases input with
  | nil => exact ⟨[], rfl⟩
  | cons c' rest =>
      simp only [numLoop, List.nil_append]
      split
      · rw [numLoop_acc]
        exact ⟨(numLoop [] c' (if c' = '.' then true else found) rest).1, rfl⟩
      · exact ⟨[], rfl⟩

/-- `found_dec` after the number loop: it holds exactly when it held
before, or some character of the scanned run other than its first one is
a `'.'` (the first character is never examined by the
`if (lastCh == '.')` update). -/
theorem numLoop_found (input : List Char) :
    ∀ (c : Char) (found : Bool),
      (numLoop [] c found input).2.1
        = (found || decide ('.' ∈ ((numLoop [] c found input).1).drop 1)) := by
  induction input with
  | nil => intro c found; simp [numLoop]
  | cons c' rest ih =>
      intro c found
      simp only [numLoop, List.nil_append]
      split
      · rw [numLoop_acc]
        obtain ⟨t, ht⟩ := numLoop_first rest c' (if c' = '.' then true else found)
        simp only [ht, ih c' (if c' = '.' then true else found)]
        by_cases hd : c' = '.'
        · simp [hd]
        · have hd' : ¬('.' = c') := fun h => hd h.symm
          simp [hd, hd']
      · rename_i hcond
        have hc' : ¬ c' = '.' := fun h => hcond (Or.inr h)
        simp [hc']

/-- Claim C4, amended: the lexer emits `fp_lit` with payload
`strtod(run)` exactly when the scanned maximal run `[0-9.]+` contains a
`'.'` at some position other than the first, and otherwise emits
`int_lit` with payload `strtol(run, 10)` — so a run whose only `'.'` is
its first character (such as ".5") is emitted as an integer literal. -/
theorem c4_number_token_selection (c : Char) (input : List Char)
    (hguard : c.isDigit ∨ c = '.') :
    ('.' ∈ ((numLoop [] c false input).1).drop 1 →
      gettokNumber c input
        = (NumTok.fp_lit (strtod10 (numLoop [] c false input).1),
           (numLoop [] c false input).2.2.1, (numLoop [] c false input).2.2.2))
    ∧ ('.' ∉ ((numLoop [] c false input).1).drop 1 →
      gettokNumber c input
        = (NumTok.int_lit (strtol10 (numLoop [] c false input).1),
           (numLoop [] c false input).2.2.1, (numLoop [] c false input).2.2.2)) := by
  have hf := numLoop_found input c false
  rcases he : numLoop [] c false input with ⟨num, found, last', rest⟩
  rw [he] at hf
  simp only at hf
  constructor
  · intro hm
    simp only at hm
    have hft : found = true := by
      rw [hf]
      simp only [Bool.false_or, decide_eq_true_eq]
      exact hm
    simp only [gettokNumber, he, hft]
    simp
  · intro hm
    simp only at hm
    have hff : found = false := by
      rw [hf]
      simp only [Bool.false_or, decide_eq_false_iff_not]
      exact hm
    simp only [gettokNumber, he, hff]
    simp

/-- The witness for the amended claim C4: scanning "1.5x" from the digit
`'1'` yields the run "1.5", whose dot sits past the first position, so
`fp_lit` is emitted with the `strtod` payload. -/
theorem c4_number_token_witness :
    '.' ∈ ((numLoop [] '1' false ".5x".toList).1).drop 1
    ∧ gettokNumber '1' ".5x".toList
        = (NumTok.fp_lit (strtod10 (numLoop [] '1' false ".5x".toList).1),
           (numLoop [] '1' false ".5x".toList).2.2.1,
           (numLoop [] '1' false ".5x".toList).2.2.2) :=
  ⟨by decide,
   (c4_number_token_selection '1' ".5x".toList (Or.inl (by decide))).1 (by decide)⟩

/-- Claim C5, counterexample. On the unterminated literal `"ab` (end of
input before any closing quote) the scanning loop never terminates —
`getch` returns EOF forever and EOF never equals `'"'` — so the lexer
neither prints a diagnostic nor returns an empty payload; the claim says
it would do both. `none` marks that divergence. -/
theorem c5_unterminated_string_diverges :
    gettokString ['a', 'b'] = none := by
  rfl

/-- If no quote occurs in the pending input, the string-scanning loop
never reaches its exit condition. -/
theorem strLoop_no_quote (input : List Char) :
    ∀ (lit : List Char) (c : Char), '"' ∉ input → c ≠ '"' →
      strLoop lit (some c) input = none := by
  induction input with
  | nil => intro lit c _ hc; simp [strLoop, hc]
  | cons c' rest ih =>
      intro lit c hin hc
      simp only [strLoop]
      rw [if_neg hc]
      have hrest : '"' ∉ rest := fun h => hin (List.mem_cons_of_mem _ h)
      have hc' : c' ≠ '"' := fun h => hin (by simp [h])
      exact ih _ c' hrest hc'

/-- The exit step of the string-scanning loop: a quote in the lookahead
ends it at once. -/
theorem strLoop_exit (lit input : List Char) :
    strLoop lit (some '"') input = some (lit, input) := by
  rw [strLoop.eq_def]
  simp

/-- Scanning from `lastCh = c` over `pre ++ '"' :: post`, with no quote
in `pre` and `c` not a quote, exits at the quote having read `c :: pre`
past the accumulator, leaving `post` pending. -/
theorem strLoop_finds_quote (pre : List Char) :
    ∀ (post lit : List Char) (c : Char), '"' ∉ pre → c ≠ '"' →
      strLoop lit (some c) (pre ++ '"' :: post) = some (lit ++ c :: pre, post) := by
  induction pre with
  | nil =>
      intro post lit c _ hc
      simp only [List.nil_append, strLoop]
      rw [if_neg hc]
      exact strLoop_exit (lit ++ [c]) post
  | cons p ps ih =>
      intro post lit c hpre hc
      simp only [List.cons_append, strLoop]
      rw [if_neg hc]
      have hps : '"' ∉ ps := fun h => hpre (List.mem_cons_of_mem _ h)
      have hp : p ≠ '"' := fun h => hpre (by simp [h])
      have hih := ih post (lit ++ [c]) p hps hp
      simp only [List.cons_append, List.append_eq] at hih ⊢
      rw [hih]
      try simp

/-- Claim C5, amended: an odd-length `\x` literal (scanned to its closing
quote) prints "invalid hex string" to the error stream and returns an
empty payload without throwing — but an unterminated string literal does
not return at all: the scanning loop diverges, so no diagnostic is
printed and no payload is produced. -/
theorem c5_string_failure_semantics :
    (∀ input : List Char, '"' ∉ input → gettokString input = none)
    ∧ (∀ t post : List Char, '"' ∉ ('\\' :: 'x' :: t) →
        ('\\' :: 'x' :: t).length % 2 = 1 →
        gettokString (('\\' :: 'x' :: t) ++ '"' :: post)
          = some ("", ["invalid hex string"], (getch post).1, (getch post).2)) := by
  constructor
  · intro input hq
    cases input with
    | nil => rfl
    | cons c rest =>
        have hc : c ≠ '"' := fun h => hq (by simp [h])
        have hrest : '"' ∉ rest := fun h => hq (List.mem_cons_of_mem _ h)
        simp only [gettokString, getch]
        rw [strLoop_no_quote rest [] c hrest hc]
  · intro t post hq hodd
    have hxt : '"' ∉ ('x' :: t) := fun h => hq (List.mem_cons_of_mem _ h)
    have hbs : ('\\' : Char) ≠ '"' := by decide
    simp only [List.cons_append, gettokString, getch]
    have hsl := strLoop_finds_quote ('x' :: t) post [] '\\' hxt hbs
    simp only [List.cons_append, List.nil_append] at hsl
    rw [hsl]
    simp only [List.nil_append]
    have hconv : ConvertHexString (String.mk ('\\' :: 'x' :: t))
        = ("", ["invalid hex string"]) := by
      have hodd' : ('\\' :: 'x' :: t).length % 2 = 1 := hodd
      simp only [List.length_cons] at hodd'
      simp [ConvertHexString, hodd']
    rw [hconv]

/-- The witness for the amended claim C5: the unterminated case at the
quoteless input "abc", and the odd-length case at the literal `"\x4"`
followed by "yz". -/
theorem c5_string_failure_witness :
    gettokString ['a', 'b', 'c'] = none
    ∧ gettokString (('\\' :: 'x' :: ['4']) ++ '"' :: ['y', 'z'])
        = some ("", ["invalid hex string"], (getch ['y', 'z']).1, (getch ['y', 'z']).2) :=
  ⟨(c5_string_failure_semantics).1 ['a', 'b', 'c'] (by decide),
   (c5_string_failure_semantics).2 ['4'] ['y', 'z'] (by decide) (by decide)⟩

/-- Claim C8, counterexample. After `def double h() var a double = 1.0`
finishes codegen successfully, the symbol table still holds the
`var`-declared local `a` (bound to its slot 3): locals are never removed
when a function's codegen returns, contradicting the claim that no
residual entries remain. -/
theorem c8_residual_local_after_codegen :
    ((fnV.codegen noProtos st0).2.1).isSome = true
    ∧ (fnV.codegen noProtos st0).2.2.NamedValues "a" = some ⟨.type_double, .double, 3⟩ := by
  refine ⟨rfl, rfl⟩

/-- Claim C2, amended: for every function definition not named "magic"
whose body codegen succeeds, does not unconditionally return, and leaves
the current insertion block empty, `FunctionAST::codegen` emits the
default `ret double 0.0` into that block; a function named "magic" is
exempted by the code. -/
theorem c2_default_return_amended (fn : FunctionAST) (protos protos₁ : ProtoMap)
    (s : CGState) (f : Func) (s' s₇ : CGState) (bodyRes : CodegenRes)
    (h₁ : fn.enter protos s = (protos₁, some f, s'))
    (h₂ : codegenStmt protos₁ fn.body s' = (bodyRes, s₇))
    (h₃ : bodyRes.success = true) (h₄ : bodyRes.ret = false)
    (h₅ : blockInstrs s₇.curBlock s₇ = some [])
    (h₆ : fn.proto.name ≠ "magic") :
    fn.codegen protos s = (protos₁, some f, emit (Instr.ret (Val.constFP 0)) s₇) := by
  have hempty : curBlockEmpty s₇ = true := by
    unfold curBlockEmpty
    rw [h₅]
    rfl
  unfold FunctionAST.codegen
  rw [h₁]
  simp [h₂, h₃, hempty, h₆]

/-- The witness for the amended claim C2: `def double g() {}` — the body
leaves the entry block empty and the default return is emitted. -/
theorem c2_default_return_amended_witness :
    plainFn.codegen noProtos st0
      = (c2protos, some c2f, emit (Instr.ret (Val.constFP 0)) c2s7) :=
  c2_default_return_amended plainFn noProtos c2protos st0 c2f c2s1 c2s7 c2res
    rfl rfl rfl rfl rfl (by decide)

/-- Claim C6: `resolveFunction` returns the current module's function of
the given name when one exists; otherwise, when the prototype registry
has an entry, it re-emits that prototype into the current module (the
new declaration is appended and carries the prototype's name) and
returns the newly created function; otherwise it returns null, leaving
the state untouched. -/
theorem c6_resolveFunction_cases (FunctionProtos : ProtoMap) (name : String) (s : CGState) :
    (∀ f, s.module.find? (fun g => g.name = name) = some f →
        resolveFunction FunctionProtos name s = (some f, s))
    ∧ (s.module.find? (fun g => g.name = name) = none →
        (∀ p, FunctionProtos name = some p →
          resolveFunction FunctionProtos name s = (some (p.codegen s).1, (p.codegen s).2)
          ∧ (p.codegen s).2.module = s.module ++ [(p.codegen s).1]
          ∧ (p.codegen s).1.name = p.name)
        ∧ (FunctionProtos name = none →
            resolveFunction FunctionProtos name s = (none, s))) := by
  refine ⟨?_, fun hmod => ⟨?_, fun hpro => ?_⟩⟩
  · intro f hf
    simp [resolveFunction, hf]
  · intro p hp
    refine ⟨?_, ?_, ?_⟩
    · rcases hpc : p.codegen s with ⟨f', s₁'⟩
      simp [resolveFunction, hmod, hp, hpc]
    · simp [PrototypeAST.codegen, freshId]
    · simp [PrototypeAST.codegen, freshId]
  · simp [resolveFunction, hmod, hpro]

/-- The witness for claim C6, exercising all three cases at concrete
states: a module hit, a registry hit with the declaration appended, and
a double miss. -/
theorem c6_resolveFunction_witness :
    resolveFunction noProtos "f" stM = (some funcF, stM)
    ∧ resolveFunction protosWithF "f" st0
        = (some (protoF.codegen st0).1, (protoF.codegen st0).2)
    ∧ (protoF.codegen st0).2.module = st0.module ++ [(protoF.codegen st0).1]
    ∧ resolveFunction protosWithF "zzz" st0 = (none, st0) := by
  refine ⟨(c6_resolveFunction_cases noProtos "f" stM).1 funcF rfl, ?_, ?_, ?_⟩
  · exact (((c6_resolveFunction_cases protosWithF "f" st0).2 rfl).1 protoF rfl).1
  · exact (((c6_resolveFunction_cases protosWithF "f" st0).2 rfl).1 protoF rfl).2.1
  · exact ((c6_resolveFunction_cases protosWithF "zzz" st0).2 rfl).2 rfl

/-- The registry `FunctionAST.enter` reports is the incoming one with
the definition's prototype transferred in under its name. -/
theorem enter_fst (fn : FunctionAST) (protos : ProtoMap) (s : CGState) :
    (fn.enter protos s).1 = registerProto fn.proto protos := by
  unfold FunctionAST.enter
  rcases h : resolveFunction (registerProto fn.proto protos) fn.proto.name s with ⟨of, s₂⟩
  cases of <;> simp [h]

/-- The registry that `FunctionAST.enter` reports, equation form. -/
theorem enter_protos (fn : FunctionAST) (protos protos₁ : ProtoMap) (s : CGState)
    (of : Option Func) (s' : CGState) (h : fn.enter protos s = (protos₁, of, s')) :
    protos₁ = registerProto fn.proto protos := by
  have hh := enter_fst fn protos s
  rw [h] at hh
  exact hh

/-- Claim C7: whenever a function definition's body codegen fails, the
partially built function is erased from the current module (no function
with its identity remains), `FunctionAST::codegen` returns null, and the
prototype registry — transferred to before the body and read-only during
it — still maps the function's name to its prototype. -/
theorem c7_failed_body_erases_function (fn : FunctionAST) (protos protos₁ : ProtoMap)
    (s : CGState) (f : Func) (s' s₇ : CGState) (bodyRes : CodegenRes)
    (h₁ : fn.enter protos s = (protos₁, some f, s'))
    (h₂ : codegenStmt protos₁ fn.body s' = (bodyRes, s₇))
    (h₃ : bodyRes.success = false) :
    fn.codegen protos s
      = (protos₁, none, { s₇ with module := s₇.module.filter (fun g => g.fid ≠ f.fid) })
    ∧ (∀ g ∈ s₇.module.filter (fun g => g.fid ≠ f.fid), g.fid ≠ f.fid)
    ∧ protos₁ fn.proto.name = some fn.proto := by
  refine ⟨?_, ?_, ?_⟩
  · unfold FunctionAST.codegen
    rw [h₁]
    simp [h₂, h₃]
  · intro g hg
    have := (List.mem_filter.mp hg).2
    simpa using this
  · rw [enter_protos fn protos protos₁ s (some f) s' h₁]
    simp [registerProto]

/-- The witness for claim C7: `def double bad() return nosuch` fails in
the body; the function is erased and the registry keeps its prototype. -/
theorem c7_failed_body_witness :
    fnBad.codegen noProtos st0
      = (c7protos, none,
         { c7s7 with module := c7s7.module.filter (fun g => g.fid ≠ c7f.fid) })
    ∧ c7protos "bad" = some fnBad.proto := by
  have h := c7_failed_body_erases_function fnBad noProtos c7protos st0 c7f c7s1 c7s7 c7res
    rfl rfl rfl
  exact ⟨h.1, h.2.2⟩

/-- `mapInsert` leaves every other key unchanged. -/
theorem mapInsert_ne (k : String) (v : Variable) (m : String → Option Variable)
    (n : String) (h : n ≠ k) : mapInsert k v m n = m n := by
  simp [mapInsert, h]

/-- One round of the parameter loop touches only that parameter's name
in the symbol table. -/
theorem setupArg_NamedValues_other (f : Func) (p : PrototypeAST) (i : Nat) (s : CGState)
    (n : String) (hi : i < f.args.length) (hn : n ∉ f.args.map Prod.fst) :
    (setupArg f p i s).NamedValues n = s.NamedValues n := by
  have hmem : (f.args.getD i ("", LType.double)).1 ∈ f.args.map Prod.fst := by
    rw [List.getD_eq_getElem f.args _ hi]
    exact List.mem_map_of_mem _ (List.getElem_mem hi)
  have hne : n ≠ (f.args.getD i ("", LType.double)).1 := fun h => hn (h ▸ hmem)
  simp only [setupArg, createEntryBlockAlloca, freshId, emit]
  exact mapInsert_ne _ _ _ _ hne

/-- The parameter loop binds only the parameter names. -/
theorem setupArgs_fold_NamedValues (f : Func) (p : PrototypeAST) (l : List Nat)
    (h : ∀ i ∈ l, i < f.args.length) :
    ∀ (s : CGState) (n : String), n ∉ f.args.map Prod.fst →
      (l.foldl (fun s i => setupArg f p i s) s).NamedValues n = s.NamedValues n := by
  induction l with
  | nil => intro s n _; rfl
  | cons i rest ih =>
      intro s n hn
      simp only [List.foldl_cons]
      rw [ih (fun j hj => h j (List.mem_cons_of_mem _ hj)) _ _ hn,
        setupArg_NamedValues_other f p i s n (h i (List.mem_cons_self _ _)) hn]

/-- Claim C8, amended: `var`-declared locals are never removed from the
symbol table when a function's codegen returns (see the counterexample);
instead the table is cleared at the start of each function's codegen, so
immediately after `FunctionAST::codegen`'s prologue the table holds
nothing but that function's parameters. -/
theorem c8_symbol_table_cleared_on_entry (fn : FunctionAST) (protos protos₁ : ProtoMap)
    (s : CGState) (f : Func) (s' : CGState)
    (h : fn.enter protos s = (protos₁, some f, s'))
    (n : String) (hn : n ∉ f.args.map Prod.fst) :
    s'.NamedValues n = none := by
  have h1 : (fn.enter protos s).2.1 = some f := by rw [h]
  have h2 : (fn.enter protos s).2.2 = s' := by rw [h]
  rw [← h2]
  unfold FunctionAST.enter at h1 ⊢
  rcases hres : resolveFunction (registerProto fn.proto protos) fn.proto.name s with ⟨of, s₂⟩
  simp only [hres] at h1 ⊢
  cases of with
  | none => simp at h1
  | some f₀ =>
      rcases hnb : newBlock "entry" s₂ with ⟨bb, s₃⟩
      simp only [hnb] at h1 ⊢
      simp only [Option.some.injEq] at h1
      rw [h1]
      unfold setupArgs
      rw [setupArgs_fold_NamedValues f fn.proto (List.range f.args.length)
        (fun i hi => List.mem_range.mp hi) _ n hn]

/-- The witness for the amended claim C8: after the prologue of
`def double w(double x) {}`, a name that is not a parameter has no
binding. -/
theorem c8_symbol_table_cleared_witness : c8s1.NamedValues "leftover" = none :=
  c8_symbol_table_cleared_on_entry fnW noProtos c8protos st0 c8f c8s1 rfl "leftover"
    (by decide)

/-- Claim C9: assignment codegen yields a null value with a diagnostic
exactly when the LHS is not a variable reference or names an unknown
variable; when the LHS is a known variable, whatever the RHS codegen
produced — null included — is handed to the emitted store and returned
as the expression's value, so an RHS failure is not propagated as an
error of its own. -/
theorem c9_assignment_codegen (FunctionProtos : ProtoMap) (lhs rhs : ExprAST) (s : CGState) :
    (lhs.asVariable? = none →
      codegenExpr FunctionProtos (.Binary '=' lhs rhs) s
        = (none, { s with errors :=
            s.errors ++ ["destination of assignment must be a variable"] }))
    ∧ (∀ lname, lhs.asVariable? = some lname →
        ∀ r s₁, codegenExpr FunctionProtos rhs s = (r, s₁) →
          (getVar lname s₁ = none →
            codegenExpr FunctionProtos (.Binary '=' lhs rhs) s
              = (none, { s₁ with errors := s₁.errors ++ ["unknown variable: " ++ lname] }))
          ∧ (∀ var, getVar lname s₁ = some var →
              codegenExpr FunctionProtos (.Binary '=' lhs rhs) s
                = (r, emit (Instr.store r (Val.reg var.allocaInst)) s₁))) := by
  refine ⟨?_, ?_⟩
  · intro hlv
    simp [codegenExpr, hlv, logErrorV]
  · intro lname hlv r s₁ hr
    refine ⟨?_, ?_⟩
    · intro hv
      simp [codegenExpr, hlv, hr, hv, logErrorV]
    · intro var hv
      simp [codegenExpr, hlv, hr, hv]

/-- The witness for claim C9: in `a = nope` with `a` known and `nope`
unknown, the RHS yields null, yet a store of that null value into `a`'s
slot is emitted and null is returned as the expression's value. -/
theorem c9_assignment_witness :
    codegenExpr noProtos (.Binary '=' (.Variable "a") (.Variable "nope")) stAB
      = (none, emit (Instr.store none (Val.reg vA.allocaInst)) c9s1) :=
  ((c9_assignment_codegen noProtos (.Variable "a") (.Variable "nope") stAB).2
    "a" rfl none c9s1 rfl).2 vA rfl

/-- Claim C10: when the condition and then-branch parse successfully but
the else-branch parse fails (returns null), `ParseIfStmt` still returns
a non-null `IfStmtAST` whose else-statement is null — the post-parse
null check re-examines the then-branch — so the parse error is not
reported to the caller. -/
theorem c10_parse_if_swallows_else_error {σ E S : Type} (env : IfParseEnv σ E S)
    (s0 s2 s4 s6 : σ) (cond : E) (thenStmt : S)
    (h1 : env.ParseExpression (env.getNextToken s0) = (some cond, s2))
    (h2 : env.curTok s2 = tok_then)
    (h3 : env.ParseStmt (env.getNextToken s2) = (some thenStmt, s4))
    (h4 : env.curTok s4 = tok_else)
    (h5 : env.ParseStmt (env.getNextToken s4) = (none, s6)) :
    ParseIfStmt env s0 = (some (IfNode.mk cond thenStmt none), s6) := by
  simp [ParseIfStmt, h1, h2, h3, h4, h5]

/-- The witness for claim C10 at a concrete parser environment. -/
theorem c10_parse_if_witness :
    ParseIfStmt c10Env 0 = (some (IfNode.mk () () none), 6) :=
  c10_parse_if_swallows_else_error c10Env 0 2 4 6 () ()
    rfl (by decide) (by decide) (by decide) (by decide)

end Kal
